import Mathlib

/-!
# Verification of the CodeInput CLI ownership-resolution core

Shallow embedding of the core resolution and cache subsystems of the
CodeInput CLI (`src/core/{resolver,common,cache,parse,types}.rs`).

Paths are modelled as lists of components (`Path := List String`), Rust
strings that require character-level reasoning as `List Char`, machine
integers as `Nat`, fallible operations as `Except`, and the `HashMap`
index structures as association lists whose key order is unobservable
(lookup-based statements only).
-/

namespace CodeInput

/-- A filesystem path, as its list of components.  `[]` is the path with no
parent (Rust's `Path::new("")` / the root). -/
abbrev Path := List String

/-- Owner classification, from `types.rs` (`OwnerType`). -/
inductive OwnerType where
  | User
  | Team
  | Email
  | Unowned
  | Unknown
deriving DecidableEq, Repr

/-- An owner: identifier string plus syntactic classification, from
`types.rs` (`Owner`). -/
structure Owner where
  identifier : List Char
  owner_type : OwnerType
deriving DecidableEq, Repr

/-- A tag: the tag text with leading `#` stripped, from `types.rs` (`Tag`). -/
structure Tag where
  name : List Char
deriving DecidableEq, Repr

/-- One parsed CODEOWNERS rule, from `types.rs` (`CodeownersEntry`). -/
structure CodeownersEntry where
  source_file : Path
  line_number : Nat
  pattern : String
  owners : List Owner
  tags : List Tag
deriving DecidableEq, Repr

/-- The resolved owners/tags for one repository file, from `types.rs`
(`FileEntry`). -/
structure FileEntry where
  path : Path
  owners : List Owner
  tags : List Tag
deriving DecidableEq, Repr

/-- The 32-byte repository digest `[u8; 32]`, modelled as a list of bytes
(compared only for equality, as in the source). -/
abbrev Hash := List Nat

/-- Error kinds surfaced by the core, from `utils/error.rs` plus the
`std::io::ErrorKind::InvalidInput` uses in `resolver.rs`/`common.rs`. -/
inductive CoreError where
  | invalidInput (msg : String)
  | serialization (msg : String)
  | other (msg : String)
deriving DecidableEq, Repr

/-! ## String helpers used by `parse_owner` (`common.rs`) -/

/-- ASCII lowercasing of one character, as by Rust's
`u8::to_ascii_lowercase`. -/
def toAsciiLower (c : Char) : Char :=
  if 'A' ≤ c ∧ c ≤ 'Z' then Char.ofNat (c.toNat + 32) else c

/-- Rust's `str::eq_ignore_ascii_case`. -/
def eqIgnoreAsciiCase (a b : List Char) : Bool :=
  a.map toAsciiLower = b.map toAsciiLower

/-- Rust's `str::split(sep)` for a single-character separator: the list of
chunks between occurrences of `c` (always nonempty). -/
def splitOnChar : List Char → Char → List (List Char)
  | [], _ => [[]]
  | d :: rest, c =>
    match splitOnChar rest c with
    | [] => [[d]]
    | h :: t => if d = c then [] :: h :: t else (d :: h) :: t

/-- Number of occurrences of a character in a string. -/
def countChar : List Char → Char → Nat
  | [], _ => 0
  | d :: rest, c => (if d = c then 1 else 0) + countChar rest c

/-! ## Owner classification (`common.rs::parse_owner`) -/

/-- `common.rs::parse_owner`: classify an owner token.  The source never
fails (`Ok` always), so the embedding is total. -/
def parse_owner (s : List Char) : Owner :=
  let owner_type :=
    if eqIgnoreAsciiCase s "NOOWNER".data then
      OwnerType.Unowned
    else if s.head? = some '@' then
      if (splitOnChar (s.drop 1) '/').length = 2 then OwnerType.Team
      else OwnerType.User
    else if s.contains '@' then OwnerType.Email
    else OwnerType.Unknown
  { identifier := s, owner_type := owner_type }

/-- Classification as worded by the specification (§3): case-insensitive
"NOOWNER" ⇒ Unowned; starts with `@` and exactly one `/` after the `@` ⇒
Team; starts with `@` otherwise ⇒ User; contains `@` ⇒ Email; else
Unknown. -/
def ownerKindSpec (s : List Char) : OwnerType :=
  if eqIgnoreAsciiCase s "NOOWNER".data then .Unowned
  else if s.head? = some '@' ∧ countChar (s.drop 1) '/' = 1 then .Team
  else if s.head? = some '@' then .User
  else if s.contains '@' then .Email
  else .Unknown

/-! ## The pattern-matcher collaborator

The glob primitive (`ignore::overrides::OverrideBuilder`) is an external
crate; the spec treats it as an abstract capability.  The resolution
functions below are parameterised over it: given the directory holding the
declaration file, the pattern text and the target file path, the matcher
answers `some true` / `some false`, or `none` when the pattern fails to
compile (`builder.add`/`builder.build` errors, which the source logs and
skips). -/

/-- Abstract pattern matcher: `pm codeowners_dir pattern file_path`. -/
abbrev PatMatcher := Path → String → Path → Option Bool

/-- Bounded-fuel glob match of one pattern segment (`*` matches any run of
characters) against one string. -/
def globSegFuel : Nat → List Char → List Char → Bool
  | 0, _, _ => false
  | _ + 1, [], [] => true
  | _ + 1, [], _ :: _ => false
  | fuel + 1, '*' :: ps, [] => globSegFuel fuel ps []
  | fuel + 1, '*' :: ps, c :: cs =>
    globSegFuel fuel ps (c :: cs) || globSegFuel fuel ('*' :: ps) cs
  | _ + 1, _ :: _, [] => false
  | fuel + 1, p :: ps, c :: cs => p = c && globSegFuel fuel ps cs

/-- Glob match of one pattern segment against one string. -/
def globSeg (p s : List Char) : Bool :=
  globSegFuel (p.length + s.length + 1) p s

/-- Modelled from the spec: the glob-matching primitive is an external
capability (the `ignore` crate's `Override`, anchored at the declaration
file's directory).  Patterns without `/` match the file's base name at any
depth below the anchor; patterns with `/` are anchored to the directory and
matched segment-wise.  Every pattern compiles (`some`). -/
def globMatch : PatMatcher := fun dir pattern file =>
  some (if dir.isPrefixOf file then
    let rel := file.drop dir.length
    let psegs := splitOnChar pattern.data '/'
    match psegs with
    | [p] =>
      match rel.getLast? with
      | some base => globSeg p base.data
      | none => false
    | _ =>
      rel.length = psegs.length &&
        (List.zip psegs rel).all fun pr => globSeg pr.1 pr.2.data
  else false)

/-! ## Resolution (`resolver.rs` and `common.rs`) -/

/-- Rust `Path::parent`: `None` for the empty path, otherwise the path
without its final component. -/
def parentPath : Path → Option Path
  | [] => none
  | p => some p.dropLast

/-- The candidate-collection phase shared verbatim by
`resolver.rs::find_owners_and_tags_for_file`,
`common.rs::find_owners_for_file` and `common.rs::find_tags_for_file`:
keep entries whose declaration directory is an ancestor-or-equal of the
target directory and whose pattern matches the file; pair each with its
depth (`components between the declaration directory and the target
directory`).  Entries with no parent directory or invalid patterns are
logged and skipped. -/
def collectCandidates (pm : PatMatcher) (file_path : Path) (target_dir : Path)
    (entries : List CodeownersEntry) : List (CodeownersEntry × Nat) :=
  entries.filterMap fun entry =>
    match parentPath entry.source_file with
    | none => none
    | some codeowners_dir =>
      if codeowners_dir.isPrefixOf target_dir then
        let depth := (target_dir.drop codeowners_dir.length).length
        match pm codeowners_dir entry.pattern file_path with
        | none => none
        | some m => if m then some (entry, depth) else none
      else none

/-- Lexicographic comparison of paths, as Rust's `PathBuf: Ord` (component
by component). -/
def comparePath : Path → Path → Ordering
  | [], [] => .eq
  | [], _ :: _ => .lt
  | _ :: _, [] => .gt
  | a :: as, b :: bs => (compare a b).then (comparePath as bs)

/-- The comparator of `resolver.rs` (line 80): depth ascending, then
source file ascending, then line number descending. -/
def resolverCmp (a b : CodeownersEntry × Nat) : Ordering :=
  (compare a.2 b.2).then
    ((comparePath a.1.source_file b.1.source_file).then
      (compare b.1.line_number a.1.line_number))

/-- The comparator of `common.rs` (lines 304 and 404): depth descending,
then line number descending, then source file ascending. -/
def commonCmp (a b : CodeownersEntry × Nat) : Ordering :=
  (compare b.2 a.2).then
    ((compare b.1.line_number a.1.line_number).then
      (comparePath a.1.source_file b.1.source_file))

/-- `candidates.sort_by(cmp)` followed by `candidates.first()`: the first
minimal element of the list under the comparator (what a stable sort puts
in front). -/
def selectBest (cmp : α → α → Ordering) : List α → Option α
  | [] => none
  | x :: xs => some (xs.foldl (fun best y => if cmp y best = .lt then y else best) x)

/-- `resolver.rs::find_owners_and_tags_for_file`: early `Ok` on empty
entries, `InvalidInput` when the file path has no parent, otherwise the
owners and tags of the best candidate (empty lists when none matched). -/
def find_owners_and_tags_for_file (pm : PatMatcher) (file_path : Path)
    (entries : List CodeownersEntry) : Except CoreError (List Owner × List Tag) :=
  if entries.isEmpty then .ok ([], [])
  else
    match parentPath file_path with
    | none => .error (.invalidInput "file path has no parent directory")
    | some target_dir =>
      match selectBest resolverCmp (collectCandidates pm file_path target_dir entries) with
      | some (entry, _) => .ok (entry.owners, entry.tags)
      | none => .ok ([], [])

/-- `common.rs::find_owners_for_file`: no empty-entries early return; error
(`Error::new`) when the file path has no parent; owners of the best
candidate under `commonCmp`. -/
def find_owners_for_file (pm : PatMatcher) (file_path : Path)
    (entries : List CodeownersEntry) : Except CoreError (List Owner) :=
  match parentPath file_path with
  | none => .error (.other "file path has no parent directory")
  | some target_dir =>
    match selectBest commonCmp (collectCandidates pm file_path target_dir entries) with
    | some (entry, _) => .ok entry.owners
    | none => .ok []

/-- `common.rs::find_tags_for_file`: same structure as
`find_owners_for_file` (its no-parent error is `InvalidInput`), returning
the best candidate's tags. -/
def find_tags_for_file (pm : PatMatcher) (file_path : Path)
    (entries : List CodeownersEntry) : Except CoreError (List Tag) :=
  match parentPath file_path with
  | none => .error (.invalidInput "file path has no parent directory")
  | some target_dir =>
    match selectBest commonCmp (collectCandidates pm file_path target_dir entries) with
    | some (entry, _) => .ok entry.tags
    | none => .ok []

/-! ## The cache (`cache.rs`, `types.rs`)

`HashMap<K, Vec<PathBuf>>` is modelled as an association list with unique
keys; key order is never part of any statement (only `lookupMap`). -/

/-- Lookup in an association-list map (`HashMap::get`). -/
def lookupMap [DecidableEq α] : List (α × β) → α → Option β
  | [], _ => none
  | p :: rest, k => if p.1 = k then some p.2 else lookupMap rest k

/-- `HashMap::insert`: replace the value at an existing key, else add the
binding. -/
def mapInsert [DecidableEq α] (m : List (α × β)) (k : α) (v : β) : List (α × β) :=
  if m.any (fun p => p.1 = k) then
    m.map fun p => if p.1 = k then (k, v) else p
  else m ++ [(k, v)]

/-- `HashSet::insert` materialised as order-of-first-insertion: add the
element unless already present. -/
def insertUnique [DecidableEq α] (l : List α) (a : α) : List α :=
  if a ∈ l then l else l ++ [a]

/-- `common.rs::collect_owners`: the distinct owners appearing in any
entry's owner list (a `HashSet` in the source; its iteration order is
arbitrary there and first-insertion order here). -/
def collect_owners (entries : List CodeownersEntry) : List Owner :=
  entries.foldl (fun acc e => e.owners.foldl insertUnique acc) []

/-- `common.rs::collect_tags`: the distinct tags appearing in any entry's
tag list. -/
def collect_tags (entries : List CodeownersEntry) : List Tag :=
  entries.foldl (fun acc e => e.tags.foldl insertUnique acc) []

/-- The cache, from `types.rs::CodeownersCache`. -/
structure CodeownersCache where
  hash : Hash
  entries : List CodeownersEntry
  files : List FileEntry
  owners_map : List (Owner × List Path)
  tags_map : List (Tag × List Path)
deriving DecidableEq, Repr

/-- The per-file step of `cache.rs::build_cache` (its loop body): resolve
owners and tags through `common.rs::find_owners_for_file` /
`find_tags_for_file`, errors propagating. -/
def resolveFile (pm : PatMatcher) (entries : List CodeownersEntry)
    (file_path : Path) : Except CoreError FileEntry := do
  let owners ← find_owners_for_file pm file_path entries
  let tags ← find_tags_for_file pm file_path entries
  pure { path := file_path, owners := owners, tags := tags }

/-- `cache.rs::build_cache`: resolve every file in order (errors
propagate), then derive the reverse maps by scanning the completed file
list once per owner of `collect_owners` and once per tag of
`collect_tags`, pushing matching paths in file-list order. -/
def build_cache (pm : PatMatcher) (entries : List CodeownersEntry)
    (files : List Path) (hash : Hash) : Except CoreError CodeownersCache :=
  (files.mapM (resolveFile pm entries)).map fun file_entries =>
    { hash := hash, entries := entries, files := file_entries,
      owners_map := (collect_owners entries).map fun o =>
        (o, (file_entries.filter fun fe => fe.owners.contains o).map (·.path)),
      tags_map := (collect_tags entries).map fun t =>
        (t, (file_entries.filter fun fe => fe.tags.contains t).map (·.path)) }

/-! ## Cache serialisation (`types.rs` custom Serialize/Deserialize,
`cache.rs::store_cache` / `load_cache`)

The byte-level encoders (serde_json / bincode) are external library
collaborators; they are abstract parameters here.  The repository's own
code is the map↔pair-list conversion and the first-byte format
sniffing. -/

/-- The at-rest shape produced by the custom `Serialize` impl in
`types.rs`: the two maps flattened to pair lists. -/
structure CacheRep where
  hash : Hash
  entries : List CodeownersEntry
  files : List FileEntry
  owners_map : List (Owner × List Path)
  tags_map : List (Tag × List Path)
deriving DecidableEq, Repr

/-- `types.rs`: `impl Serialize for CodeownersCache` — emit the maps as
lists of pairs. -/
def cacheToRep (c : CodeownersCache) : CacheRep :=
  { hash := c.hash, entries := c.entries, files := c.files,
    owners_map := c.owners_map, tags_map := c.tags_map }

/-- `types.rs`: `impl Deserialize for CodeownersCache` — rebuild the
`HashMap`s by inserting each pair into an empty map. -/
def repToCache (r : CacheRep) : CodeownersCache :=
  { hash := r.hash, entries := r.entries, files := r.files,
    owners_map := r.owners_map.foldl (fun m kv => mapInsert m kv.1 kv.2) [],
    tags_map := r.tags_map.foldl (fun m kv => mapInsert m kv.1 kv.2) [] }

/-- Cache encodings, from `types.rs::CacheEncoding`. -/
inductive CacheEncoding where
  | Bincode
  | Json
deriving DecidableEq, Repr

/-- A byte of the serialised cache file. -/
abbrev Byte := Nat

/-- An external byte codec (serde_json or bincode): encoder plus decoder,
where `none` models a deserialisation error. -/
structure Codec where
  enc : CacheRep → List Byte
  dec : List Byte → Option CacheRep

/-- `cache.rs::store_cache`: serialise with the chosen encoding (the
parent-directory creation, buffered writing and flush are filesystem
I/O outside the model; the written content is the encoder's output). -/
def store_cache (json bincode : Codec) (cache : CodeownersCache)
    (encoding : CacheEncoding) : List Byte :=
  match encoding with
  | .Bincode => bincode.enc (cacheToRep cache)
  | .Json => json.enc (cacheToRep cache)

/-- `cache.rs::load_cache`: if the first byte is `'{'` (0x7b), attempt the
JSON decode only; otherwise attempt bincode and fall back to JSON before
reporting failure. -/
def load_cache (json bincode : Codec) (bytes : List Byte) :
    Except CoreError CodeownersCache :=
  if bytes.head? = some 0x7b then
    match json.dec bytes with
    | some rep => .ok (repToCache rep)
    | none => .error (.serialization "Failed to deserialize JSON cache")
  else
    match bincode.dec bytes with
    | some rep => .ok (repToCache rep)
    | none =>
      match json.dec bytes with
      | some rep => .ok (repToCache rep)
      | none => .error (.serialization "Failed to deserialize cache in any supported format")

/-! ## Repository synchronisation (`cache.rs::sync_cache`, `parse.rs::parse_repo`,
`common.rs::get_repo_hash`) -/

/-- Modelled from the spec: the repository state visible to the
synchroniser.  `entries`/`files` stand for what `find_codeowners_files` +
`parse_codeowners` and `find_files` return (external directory walking and
lexing); `gitBase` stands for the committed + staged git material (HEAD
oid, index tree); `cacheBytes` is the content of the file at the resolved
cache path (`none` when missing).  The unstaged/untracked diff hashed by
`get_repo_hash` covers the cache file when present, since the source does
not exclude it (the TODO at `common.rs::get_repo_hash`). -/
structure RepoModel where
  entries : List CodeownersEntry
  files : List Path
  gitBase : List Byte
  cacheBytes : Option (List Byte)
deriving DecidableEq, Repr

/-- The SHA-256 combination performed by `common.rs::get_repo_hash`,
abstracted to an opaque digest function over exactly the material the
source hashes: the committed/staged state and the unstaged/untracked diff
(cache file included when present). -/
abbrev RepoHashFn := List Byte → Option (List Byte) → Hash

/-- `common.rs::get_repo_hash` over the model state. -/
def get_repo_hash (H : RepoHashFn) (r : RepoModel) : Hash :=
  H r.gitBase r.cacheBytes

/-- `parse.rs::parse_repo`: parse declaration files, enumerate files,
compute the repository hash (before the cache file is written), build the
cache, store it Bincode-encoded at the cache path, and return it. -/
def parse_repo (pm : PatMatcher) (H : RepoHashFn) (json bincode : Codec)
    (r : RepoModel) : Except CoreError (CodeownersCache × RepoModel) := do
  let hash := get_repo_hash H r
  let cache ← build_cache pm r.entries r.files hash
  let bytes := store_cache json bincode cache .Bincode
  pure (cache, { r with cacheBytes := some bytes })

/-- `cache.rs::sync_cache`: missing cache file ⇒ rebuild via `parse_repo`;
existing file ⇒ load it (a load failure is wrapped and returned — the `?`
at cache.rs line 240), then compare the stored hash with the current
repository hash: equal ⇒ return the loaded cache, different ⇒ rebuild. -/
def sync_cache (pm : PatMatcher) (H : RepoHashFn) (json bincode : Codec)
    (r : RepoModel) : Except CoreError (CodeownersCache × RepoModel) :=
  match r.cacheBytes with
  | none => parse_repo pm H json bincode r
  | some bytes =>
    match load_cache json bincode bytes with
    | .error _ => .error (.other "Failed to load cache")
    | .ok cache =>
      if cache.hash ≠ get_repo_hash H r then parse_repo pm H json bincode r
      else .ok (cache, r)

/-! ## Concrete scenario data

The depth-precedence scenario of the spec (§8): entry A declared in the
root `CODEOWNERS` with pattern `*`, entry B declared in `src/CODEOWNERS`
with pattern `*.rs`, target file `src/main.rs`; the two line-precedence
scenarios; and small repository states for the synchroniser. -/

def ownA : Owner := { identifier := "@root-team".data, owner_type := .Team }

def ownB : Owner := { identifier := "@src-team".data, owner_type := .Team }

def tagA : Tag := { name := "root".data }

def tagB : Tag := { name := "src".data }

/-- Entry A: root declaration file, pattern `*`. -/
def entryA (line : Nat) : CodeownersEntry :=
  { source_file := ["CODEOWNERS"], line_number := line, pattern := "*",
    owners := [ownA], tags := [tagA] }

/-- Entry B: declaration file in `src/`, pattern `*.rs`. -/
def entryB (line : Nat) : CodeownersEntry :=
  { source_file := ["src", "CODEOWNERS"], line_number := line, pattern := "*.rs",
    owners := [ownB], tags := [tagB] }

/-- Root-file entry with pattern `*.rs` (line-precedence scenario at
depth 0). -/
def entryB0 (line : Nat) : CodeownersEntry :=
  { source_file := ["CODEOWNERS"], line_number := line, pattern := "*.rs",
    owners := [ownB], tags := [tagB] }

/-- Root-file entry with pattern `src/*.rs` (line-precedence scenario at
depth 1). -/
def entryBsrc (line : Nat) : CodeownersEntry :=
  { source_file := ["CODEOWNERS"], line_number := line, pattern := "src/*.rs",
    owners := [ownB], tags := [tagB] }

def fMain : Path := ["src", "main.rs"]

def fRoot : Path := ["main.rs"]

def h0 : Hash := [0]

/-- A digest function standing for SHA-256 in concrete synchroniser runs:
injective in the hashed material, so distinct repository states give
distinct hashes. -/
def hashFn0 : RepoHashFn := fun base cb =>
  base ++ (match cb with | none => [0] | some bs => 1 :: bs)

/-- A codec whose decoder rejects everything (garbage cache content). -/
def codecFail : Codec := { enc := fun _ => [0], dec := fun _ => none }

/-- Repository with a cache file present whose two bytes decode under no
supported format. -/
def repoBad : RepoModel :=
  { entries := [entryA 1], files := [fRoot], gitBase := [7], cacheBytes := some [9, 9] }

/-- Repository with no declaration entries, no files and no cache file
yet. -/
def repoEmpty : RepoModel :=
  { entries := [], files := [], gitBase := [7], cacheBytes := none }

/-- The cache `parse_repo` builds for `repoEmpty` (hash computed while the
cache file is still absent). -/
def cacheSync1 : CodeownersCache :=
  { hash := [7, 0], entries := [], files := [], owners_map := [], tags_map := [] }

/-- JSON-side codec for the synchroniser runs (never consulted). -/
def codecJson4 : Codec := { enc := fun _ => [0x7b], dec := fun _ => none }

/-- Bincode-side codec for the synchroniser runs: encodes any cache as the
byte `[2]` and decodes `[2]` back to `cacheSync1`. -/
def codecBin4 : Codec :=
  { enc := fun _ => [2],
    dec := fun bs => if bs = [2] then some (cacheToRep cacheSync1) else none }

/-- `repoEmpty` right after the first synchronisation wrote the cache
file. -/
def repoAfter : RepoModel := { repoEmpty with cacheBytes := some [2] }

/-- The cache `build_cache` produces for entries {A, B} and the single
file `src/main.rs` — note the stored owners/tags for `src/main.rs` come
from entry A. -/
def cacheD : CodeownersCache :=
  { hash := h0,
    entries := [entryA 1, entryB 1],
    files := [{ path := fMain, owners := [ownA], tags := [tagA] }],
    owners_map := [(ownA, [fMain]), (ownB, [])],
    tags_map := [(tagA, [fMain]), (tagB, [])] }

/-- A concrete textual codec for the round-trip witness: its output starts
with the byte `0x7b` and it decodes its own output. -/
def codecJsonW : Codec :=
  { enc := fun _ => [0x7b],
    dec := fun bs => if bs = [0x7b] then some (cacheToRep cacheD) else none }

/-- A concrete binary codec for the round-trip witness: its output does not
start with `0x7b` and it decodes its own output. -/
def codecBinW : Codec :=
  { enc := fun _ => [0],
    dec := fun bs => if bs = [0] then some (cacheToRep cacheD) else none }

/-! ## Helper lemmas -/

theorem splitOnChar_ne_nil (l : List Char) (c : Char) : splitOnChar l c ≠ [] := by
  cases l with
  | nil => simp [splitOnChar]
  | cons d rest =>
    simp only [splitOnChar]
    rcases h : splitOnChar rest c with _ | ⟨hd, tl⟩
    · simp
    · by_cases hdc : d = c <;> simp [hdc]

theorem splitOnChar_length (l : List Char) (c : Char) :
    (splitOnChar l c).length = countChar l c + 1 := by
  induction l with
  | nil => simp [splitOnChar, countChar]
  | cons d rest ih =>
    simp only [splitOnChar, countChar]
    rcases h : splitOnChar rest c with _ | ⟨hd, tl⟩
    · exact absurd h (splitOnChar_ne_nil rest c)
    · rw [h] at ih
      simp only [List.length_cons] at ih
      by_cases hdc : d = c <;> simp [hdc] <;> omega

theorem mem_insertUnique [DecidableEq α] (l : List α) (a b : α) :
    a ∈ insertUnique l b ↔ a ∈ l ∨ a = b := by
  unfold insertUnique
  split_ifs with h
  · constructor
    · exact Or.inl
    · rintro (hl | rfl)
      · exact hl
      · exact h
  · simp

theorem mem_foldl_insertUnique [DecidableEq α] (l : List α) (acc : List α) (a : α) :
    a ∈ l.foldl insertUnique acc ↔ a ∈ acc ∨ a ∈ l := by
  induction l generalizing acc with
  | nil => simp
  | cons b bs ih =>
    rw [List.foldl_cons, ih, mem_insertUnique]
    simp [or_assoc]

theorem mem_foldl_collect [DecidableEq β] (f : α → List β) (l : List α)
    (acc : List β) (x : β) :
    x ∈ l.foldl (fun acc e => (f e).foldl insertUnique acc) acc ↔
      x ∈ acc ∨ ∃ e ∈ l, x ∈ f e := by
  induction l generalizing acc with
  | nil => simp
  | cons e es ih =>
    rw [List.foldl_cons, ih, mem_foldl_insertUnique]
    simp [or_assoc]

theorem mem_collect_owners (entries : List CodeownersEntry) (o : Owner) :
    o ∈ collect_owners entries ↔ ∃ e ∈ entries, o ∈ e.owners := by
  have h := mem_foldl_collect (fun e => e.owners) entries [] o
  simpa [collect_owners] using h

theorem mem_collect_tags (entries : List CodeownersEntry) (t : Tag) :
    t ∈ collect_tags entries ↔ ∃ e ∈ entries, t ∈ e.tags := by
  have h := mem_foldl_collect (fun e => e.tags) entries [] t
  simpa [collect_tags] using h

theorem lookupMap_map_eq [DecidableEq α] (l : List α) (g : α → β) (k : α) :
    lookupMap (l.map fun a => (a, g a)) k = if k ∈ l then some (g k) else none := by
  induction l with
  | nil => simp [lookupMap]
  | cons a as ih =>
    by_cases h : a = k
    · subst h
      simp [lookupMap]
    · simp [lookupMap, h, ih, Ne.symm h]

theorem mapInsert_of_not_mem [DecidableEq α] (m : List (α × β)) (k : α) (v : β)
    (h : ∀ p ∈ m, p.1 ≠ k) : mapInsert m k v = m ++ [(k, v)] := by
  unfold mapInsert
  rw [if_neg]
  intro hc
  simp only [List.any_eq_true, decide_eq_true_eq] at hc
  obtain ⟨p, hp, he⟩ := hc
  exact h p hp he

theorem foldl_mapInsert_append [DecidableEq α] (l : List (α × β)) (acc : List (α × β))
    (hd : ∀ p ∈ acc, ∀ q ∈ l, p.1 ≠ q.1) (hn : (l.map Prod.fst).Nodup) :
    l.foldl (fun m kv => mapInsert m kv.1 kv.2) acc = acc ++ l := by
  induction l generalizing acc with
  | nil => simp
  | cons kv rest ih =>
    rw [List.foldl_cons,
      mapInsert_of_not_mem acc kv.1 kv.2 (fun p hp => hd p hp kv (by simp))]
    rw [List.map_cons, List.nodup_cons] at hn
    rw [ih (acc ++ [kv]) ?_ hn.2]
    · simp
    · intro p hp q hq
      rcases List.mem_append.1 hp with hpa | hpk
      · exact hd p hpa q (List.mem_cons_of_mem _ hq)
      · have hpkv : p = kv := by simpa using hpk
        subst hpkv
        intro he
        exact hn.1 (he ▸ List.mem_map_of_mem Prod.fst hq)

theorem repToCache_cacheToRep (c : CodeownersCache)
    (hO : (c.owners_map.map Prod.fst).Nodup) (hT : (c.tags_map.map Prod.fst).Nodup) :
    repToCache (cacheToRep c) = c := by
  unfold repToCache cacheToRep
  have h1 := foldl_mapInsert_append c.owners_map [] (by simp) hO
  have h2 := foldl_mapInsert_append c.tags_map [] (by simp) hT
  simp only [List.nil_append] at h1 h2
  simp [h1, h2]

theorem build_cache_ok {pm : PatMatcher} {entries : List CodeownersEntry}
    {files : List Path} {hash : Hash} {c : CodeownersCache}
    (h : build_cache pm entries files hash = .ok c) :
    ∃ fes, files.mapM (resolveFile pm entries) = .ok fes ∧
      c = { hash := hash, entries := entries, files := fes,
            owners_map := (collect_owners entries).map fun o =>
              (o, (fes.filter fun fe => fe.owners.contains o).map (·.path)),
            tags_map := (collect_tags entries).map fun t =>
              (t, (fes.filter fun fe => fe.tags.contains t).map (·.path)) } := by
  unfold build_cache at h
  cases hm : files.mapM (resolveFile pm entries) with
  | error e =>
    rw [hm] at h
    exact absurd h (by simp [Except.map])
  | ok fes =>
    rw [hm] at h
    simp only [Except.map, Except.ok.injEq] at h
    exact ⟨fes, rfl, h.symm⟩

/-! ## Claim theorems -/

/-- C1: the cache does NOT materialize the resolver's results.  At the
depth-precedence scenario (entry A at the root with pattern `*`, entry B
in `src/` with pattern `*.rs`, file `src/main.rs`), the public resolver
returns B's owners and tags, while `build_cache` — which resolves through
`common.rs::find_owners_for_file` / `find_tags_for_file` with the opposite
(descending) depth order — stores A's owners and tags in the file's
record. -/
theorem build_cache_diverges_from_resolver :
    find_owners_and_tags_for_file globMatch fMain [entryA 1, entryB 1] = .ok ([ownB], [tagB]) ∧
    build_cache globMatch [entryA 1, entryB 1] [fMain] h0 = .ok cacheD ∧
    cacheD.files = [{ path := fMain, owners := [ownA], tags := [tagA] }] :=
  ⟨rfl, rfl, rfl⟩

/-- C2: depth precedence, evaluated for any line numbers of A and B.  The
resolver (`resolver.rs`, ascending depth) returns the nested entry B's
owners and tags for `src/main.rs`, as the claim states; but
`common.rs::find_owners_for_file` / `find_tags_for_file` sort depth
descending and return the ancestor entry A's results, contradicting the
claim's "must hold for both" clause. -/
theorem depth_precedence_resolver_vs_common (la lb : Nat) :
    find_owners_and_tags_for_file globMatch fMain [entryA la, entryB lb] = .ok ([ownB], [tagB]) ∧
    find_owners_for_file globMatch fMain [entryA la, entryB lb] = .ok [ownA] ∧
    find_tags_for_file globMatch fMain [entryA la, entryB lb] = .ok [tagA] :=
  ⟨rfl, rfl, rfl⟩

/-- C3: on a repository whose cache file exists but fails to decode under
every supported format, `sync_cache` returns the load error instead of
rebuilding — even though rebuilding (`parse_repo`) would succeed on the
same state. -/
theorem sync_cache_propagates_load_error :
    sync_cache globMatch hashFn0 codecFail codecFail repoBad =
      .error (.other "Failed to load cache") ∧
    (parse_repo globMatch hashFn0 codecFail codecFail repoBad).isOk = true :=
  ⟨rfl, rfl⟩

/-- C4: sync is not idempotent.  Starting with no cache file, the first
`sync_cache` builds `cacheSync1`, whose hash was computed before the cache
file was written.  On the resulting state the freshly written cache file
is part of the untracked material hashed by `get_repo_hash`, so the second
call sees a different repository hash, takes the stale branch (it equals
`parse_repo`, a rebuild), and even returns a different stored hash. -/
theorem sync_cache_second_call_rebuilds :
    sync_cache globMatch hashFn0 codecJson4 codecBin4 repoEmpty = .ok (cacheSync1, repoAfter) ∧
    load_cache codecJson4 codecBin4 [2] = .ok cacheSync1 ∧
    get_repo_hash hashFn0 repoAfter ≠ cacheSync1.hash ∧
    sync_cache globMatch hashFn0 codecJson4 codecBin4 repoAfter =
      parse_repo globMatch hashFn0 codecJson4 codecBin4 repoAfter ∧
    (sync_cache globMatch hashFn0 codecJson4 codecBin4 repoAfter).map (fun p => p.1.hash) =
      .ok [7, 1, 2] :=
  ⟨rfl, rfl, by decide, rfl, rfl⟩

/-- C5 counterexample: with an EMPTY entry list and a file path with no
parent directory, the resolver returns `Ok` (empty results) — the
empty-entries early return precedes the parent check — refuting the
claim's "every candidate entry list (including the empty list)". -/
theorem resolver_no_parent_empty_entries_ok :
    find_owners_and_tags_for_file globMatch [] [] = .ok ([], []) := rfl

/-- C5 amended: for every NONEMPTY candidate entry list and every pattern
matcher, the resolver fails with an `InvalidInput` error on a file path
that has no parent directory (with an empty entry list it instead returns
`Ok` with empty results before checking the path). -/
theorem resolver_no_parent_invalid_input (pm : PatMatcher)
    (entries : List CodeownersEntry) (h : entries ≠ []) :
    find_owners_and_tags_for_file pm [] entries =
      .error (.invalidInput "file path has no parent directory") := by
  cases entries with
  | nil => exact absurd rfl h
  | cons e es => rfl

theorem resolver_no_parent_invalid_input_witness :
    [entryA 1] ≠ [] ∧
    find_owners_and_tags_for_file globMatch [] [entryA 1] =
      .error (.invalidInput "file path has no parent directory") :=
  ⟨by simp, resolver_no_parent_invalid_input globMatch [entryA 1] (by simp)⟩

/-- C6: line-number precedence at equal depth, for all line numbers
`l1 < l2`.  Scenario one: both entries in the root declaration file
(patterns `*` and `*.rs`) matched against `main.rs` in the declaration
file's own directory (depth 0).  Scenario two: both entries in the root
declaration file (patterns `*` and `src/*.rs`) matched against
`src/main.rs` (depth 1).  In both scenarios the higher line number wins —
for the resolver and for `common.rs::find_owners_for_file` /
`find_tags_for_file` alike. -/
theorem line_precedence_same_file (l1 l2 : Nat) (h : l1 < l2) :
    (find_owners_and_tags_for_file globMatch fRoot [entryA l1, entryB0 l2] = .ok ([ownB], [tagB]) ∧
     find_owners_for_file globMatch fRoot [entryA l1, entryB0 l2] = .ok [ownB] ∧
     find_tags_for_file globMatch fRoot [entryA l1, entryB0 l2] = .ok [tagB]) ∧
    (find_owners_and_tags_for_file globMatch fMain [entryA l1, entryBsrc l2] = .ok ([ownB], [tagB]) ∧
     find_owners_for_file globMatch fMain [entryA l1, entryBsrc l2] = .ok [ownB] ∧
     find_tags_for_file globMatch fMain [entryA l1, entryBsrc l2] = .ok [tagB]) := by
  have hc : compare l1 l2 = Ordering.lt := Nat.compare_eq_lt.mpr h
  refine ⟨⟨?_, ?_, ?_⟩, ?_, ?_, ?_⟩ <;>
    simp +decide [find_owners_and_tags_for_file, find_owners_for_file, find_tags_for_file,
      parentPath, collectCandidates, globMatch, globSeg, globSegFuel, splitOnChar, selectBest,
      resolverCmp, commonCmp, comparePath, entryA, entryB0, entryBsrc, fRoot, fMain,
      ownA, ownB, tagA, tagB, hc, Ordering.then]

theorem line_precedence_same_file_witness :
    (1 < 5) ∧
    find_owners_and_tags_for_file globMatch fRoot [entryA 1, entryB0 5] = .ok ([ownB], [tagB]) ∧
    find_owners_and_tags_for_file globMatch fMain [entryA 1, entryBsrc 10] = .ok ([ownB], [tagB]) :=
  ⟨by decide, (line_precedence_same_file 1 5 (by decide)).1.1,
   (line_precedence_same_file 1 10 (by decide)).2.1⟩

/-- C7: index consistency.  In every successfully built cache, the value
stored under any Owner key of `owners_map` is exactly the list of paths of
the file records whose owner list contains that owner, and symmetrically
for `tags_map` and tags. -/
theorem build_cache_index_consistent (pm : PatMatcher) (entries : List CodeownersEntry)
    (files : List Path) (hash : Hash) (c : CodeownersCache)
    (hc : build_cache pm entries files hash = .ok c) :
    (∀ o paths, lookupMap c.owners_map o = some paths →
        paths = (c.files.filter fun fe => fe.owners.contains o).map (·.path)) ∧
    (∀ t paths, lookupMap c.tags_map t = some paths →
        paths = (c.files.filter fun fe => fe.tags.contains t).map (·.path)) := by
  obtain ⟨fes, hm, rfl⟩ := build_cache_ok hc
  constructor <;> intro k paths hp <;> rw [lookupMap_map_eq] at hp <;> split_ifs at hp with hk
  · exact (Option.some.inj hp).symm
  · exact (Option.some.inj hp).symm

theorem build_cache_index_consistent_witness :
    build_cache globMatch [entryA 1, entryB 1] [fMain] h0 = .ok cacheD ∧
    ((∀ o paths, lookupMap cacheD.owners_map o = some paths →
        paths = (cacheD.files.filter fun fe => fe.owners.contains o).map (·.path)) ∧
     (∀ t paths, lookupMap cacheD.tags_map t = some paths →
        paths = (cacheD.files.filter fun fe => fe.tags.contains t).map (·.path))) :=
  ⟨rfl, build_cache_index_consistent globMatch [entryA 1, entryB 1] [fMain] h0 cacheD rfl⟩

/-- C8: cache round-trip.  For any built cache with duplicate-free map
keys and either encoding, writing with `store_cache` and reading back with
`load_cache` returns the cache unchanged, given that the external codecs
invert on it, the textual encoding starts with the `0x7b` delimiter and
the binary one does not (the collaborator behaviour the first-byte
sniffing relies on). -/
theorem store_load_roundtrip (json bincode : Codec) (c : CodeownersCache)
    (hO : (c.owners_map.map Prod.fst).Nodup) (hT : (c.tags_map.map Prod.fst).Nodup)
    (hj : json.dec (json.enc (cacheToRep c)) = some (cacheToRep c))
    (hb : bincode.dec (bincode.enc (cacheToRep c)) = some (cacheToRep c))
    (hjh : (json.enc (cacheToRep c)).head? = some 0x7b)
    (hbh : (bincode.enc (cacheToRep c)).head? ≠ some 0x7b)
    (encoding : CacheEncoding) :
    load_cache json bincode (store_cache json bincode c encoding) = .ok c := by
  have hrt : repToCache (cacheToRep c) = c := repToCache_cacheToRep c hO hT
  cases encoding with
  | Bincode =>
    simp only [store_cache, load_cache]
    rw [if_neg hbh, hb]
    simp [hrt]
  | Json =>
    simp only [store_cache, load_cache]
    rw [if_pos hjh, hj]
    simp [hrt]

theorem store_load_roundtrip_witness :
    ((cacheD.owners_map.map Prod.fst).Nodup ∧ (cacheD.tags_map.map Prod.fst).Nodup ∧
     codecJsonW.dec (codecJsonW.enc (cacheToRep cacheD)) = some (cacheToRep cacheD) ∧
     codecBinW.dec (codecBinW.enc (cacheToRep cacheD)) = some (cacheToRep cacheD) ∧
     (codecJsonW.enc (cacheToRep cacheD)).head? = some 0x7b ∧
     (codecBinW.enc (cacheToRep cacheD)).head? ≠ some 0x7b) ∧
    load_cache codecJsonW codecBinW (store_cache codecJsonW codecBinW cacheD .Bincode) =
      .ok cacheD ∧
    load_cache codecJsonW codecBinW (store_cache codecJsonW codecBinW cacheD .Json) =
      .ok cacheD :=
  ⟨⟨by decide, by decide, by decide, by decide, by decide, by decide⟩,
   store_load_roundtrip codecJsonW codecBinW cacheD (by decide) (by decide) (by decide)
     (by decide) (by decide) (by decide) .Bincode,
   store_load_roundtrip codecJsonW codecBinW cacheD (by decide) (by decide) (by decide)
     (by decide) (by decide) (by decide) .Json⟩

/-- C9: for every owner token `s`, `parse_owner` keeps the identifier and
classifies it exactly as the specification's ordered rules state
(case-insensitive "NOOWNER" ⇒ Unowned; `@` with exactly one `/` after it ⇒
Team; `@` otherwise ⇒ User; any `@` inside ⇒ Email; otherwise Unknown). -/
theorem parse_owner_matches_spec (s : List Char) :
    parse_owner s = { identifier := s, owner_type := ownerKindSpec s } := by
  have hlen := splitOnChar_length (s.drop 1) '/'
  simp only [parse_owner, ownerKindSpec, hlen]
  split_ifs <;> simp_all

/-- C10: in every successfully built cache, `owners_map` has exactly the
owners occurring in some input entry as keys (likewise `tags_map` for
tags), and a declared owner (tag) contained in no file record is still a
key, mapped to the empty path list. -/
theorem build_cache_reverse_index_keys (pm : PatMatcher) (entries : List CodeownersEntry)
    (files : List Path) (hash : Hash) (c : CodeownersCache)
    (hc : build_cache pm entries files hash = .ok c) :
    (∀ o, (lookupMap c.owners_map o).isSome ↔ ∃ e ∈ entries, o ∈ e.owners) ∧
    (∀ o, (∃ e ∈ entries, o ∈ e.owners) → (∀ fe ∈ c.files, o ∉ fe.owners) →
        lookupMap c.owners_map o = some []) ∧
    (∀ t, (lookupMap c.tags_map t).isSome ↔ ∃ e ∈ entries, t ∈ e.tags) ∧
    (∀ t, (∃ e ∈ entries, t ∈ e.tags) → (∀ fe ∈ c.files, t ∉ fe.tags) →
        lookupMap c.tags_map t = some []) := by
  obtain ⟨fes, hm, rfl⟩ := build_cache_ok hc
  refine ⟨?_, ?_, ?_, ?_⟩
  · intro o
    rw [lookupMap_map_eq, ← mem_collect_owners]
    split_ifs with h <;> simp [h]
  · intro o ho hnone
    rw [lookupMap_map_eq, if_pos ((mem_collect_owners entries o).mpr ho)]
    have hn : ∀ fe ∈ fes, o ∉ fe.owners := hnone
    have hfil : fes.filter (fun fe => fe.owners.contains o) = [] := by
      rw [List.filter_eq_nil_iff]
      intro fe hfe
      simpa using hn fe hfe
    simp only [hfil, List.map_nil]
  · intro t
    rw [lookupMap_map_eq, ← mem_collect_tags]
    split_ifs with h <;> simp [h]
  · intro t ht hnone
    rw [lookupMap_map_eq, if_pos ((mem_collect_tags entries t).mpr ht)]
    have hn : ∀ fe ∈ fes, t ∉ fe.tags := hnone
    have hfil : fes.filter (fun fe => fe.tags.contains t) = [] := by
      rw [List.filter_eq_nil_iff]
      intro fe hfe
      simpa using hn fe hfe
    simp only [hfil, List.map_nil]

theorem build_cache_reverse_index_keys_witness :
    build_cache globMatch [entryA 1, entryB 1] [fMain] h0 = .ok cacheD ∧
    ((∀ o, (lookupMap cacheD.owners_map o).isSome ↔ ∃ e ∈ [entryA 1, entryB 1], o ∈ e.owners) ∧
     (∀ o, (∃ e ∈ [entryA 1, entryB 1], o ∈ e.owners) → (∀ fe ∈ cacheD.files, o ∉ fe.owners) →
        lookupMap cacheD.owners_map o = some []) ∧
     (∀ t, (lookupMap cacheD.tags_map t).isSome ↔ ∃ e ∈ [entryA 1, entryB 1], t ∈ e.tags) ∧
     (∀ t, (∃ e ∈ [entryA 1, entryB 1], t ∈ e.tags) → (∀ fe ∈ cacheD.files, t ∉ fe.tags) →
        lookupMap cacheD.tags_map t = some [])) :=
  ⟨rfl, build_cache_reverse_index_keys globMatch [entryA 1, entryB 1] [fMain] h0 cacheD rfl⟩

end CodeInput
